import Mathlib

/-!
Verification development for the jaxoplanet core specification.

The repository sources available here are the documentation notebooks and the
installation guide; the bodies of the core numerical routines (the Kepler
solver, the occultation geometry, the limb-darkening integrator, the
spherical-harmonic surface code) are not among the visible files.  Every
definition below whose doc comment starts with "Modelled from the spec:" is a
shallow embedding of such a missing routine, reconstructed faithfully from the
natural-language specification (spec.md) and from the way the visible
notebooks call the routine.  Real-valued quantities are modelled over the real
numbers; validation and classification logic, which the code performs with
plain comparisons, is modelled generically over a linear ordered field so that
it can be executed on rational inputs.
-/

namespace Jaxoplanet

/- ## Kepler solver (spec section 4.1) -/

/-- Modelled from the spec: one Newton-Raphson refinement step for Kepler's
equation `E - e * sin E = M`.  The missing source is the core Kepler solver
module; the spec prescribes Newton-Raphson on `g E = E - e * sin E - M` with
derivative `1 - e * cos E`. -/
noncomputable def keplerStep (e M E : ℝ) : ℝ :=
  E - (E - e * Real.sin E - M) / (1 - e * Real.cos E)

/-- Modelled from the spec: the fixed number of Newton refinement steps
the solver runs (spec section 4.1 gives "a fixed number of refinement steps
(e.g. 10)"). -/
def keplerIterationCount : ℕ := 10

/-- Modelled from the spec: the solver iterates `keplerStep` starting from the
analytic guess `E₀ = M`, with no convergence gate; the second component counts
the refinement steps actually performed. -/
noncomputable def keplerAux (e M : ℝ) : ℕ → ℝ × ℕ
  | 0 => (M, 0)
  | n + 1 =>
    let p := keplerAux e M n
    (keplerStep e M p.1, p.2 + 1)

/-- Modelled from the spec: the eccentric anomaly returned by the Kepler
solver after the fixed iteration budget. -/
noncomputable def keplerSolver (e M : ℝ) : ℝ :=
  (keplerAux e M keplerIterationCount).1

/- ## Input validation (spec sections 3 and 7) -/

/-- Modelled from the spec: the descriptive domain errors of the precondition
taxonomy in spec section 7 (invalid eccentricity, non-positive period, radius
or mass). -/
inductive DomainError : Type
  | invalidEccentricity : DomainError
  | nonPositivePeriod : DomainError
  | nonPositiveRadius : DomainError
  | nonPositiveMass : DomainError
deriving DecidableEq, Repr

/-- Modelled from the spec: the validated orbital-element record of the data
model (spec section 3), restricted to the fields whose invariants the claims
mention. -/
structure OrbitalElements (K : Type) : Type where
  period : K
  eccentricity : K
  radius : K
  mass : K
deriving DecidableEq, Repr

/-- Modelled from the spec: the validating constructor for orbital elements.
It fails immediately with a descriptive domain error on any precondition
violation and otherwise stores the inputs unchanged (no clamping). -/
def mkOrbitalElements {K : Type} [LinearOrderedField K] (p e rad m : K) :
    Except DomainError (OrbitalElements K) :=
  if p ≤ 0 then .error .nonPositivePeriod
  else if e < 0 ∨ 1 ≤ e then .error .invalidEccentricity
  else if rad ≤ 0 then .error .nonPositiveRadius
  else if m ≤ 0 then .error .nonPositiveMass
  else .ok ⟨p, e, rad, m⟩

/- ## Occultation geometry classification (spec section 4.3) -/

/-- Modelled from the spec: the tagged overlap state returned by the
occultation-geometry classification (no overlap / one disk fully inside the
other / partial lens-shaped overlap). -/
inductive OverlapCase : Type
  | separate : OverlapCase
  | contained : OverlapCase
  | lens : OverlapCase
deriving DecidableEq, Repr

/-- Modelled from the spec: the occultation-geometry classifier.  Given the
occulted radius `R`, the occultor radius `r` and the projected separation `d`,
the cases of spec section 4.3 are tried in the order they are listed, the
final one being the "otherwise" case. -/
def classify {K : Type} [LinearOrderedField K] (R r d : K) : OverlapCase :=
  if R + r ≤ d then .separate
  else if d ≤ |R - r| then .contained
  else .lens

/- ## Closed-form occultation area and uniform flux (spec sections 4.3, 4.4, 7) -/

/-- Modelled from the spec: a division that is checked rather than allowed to
produce a division-by-zero result; the spec (section 7, numerical edge cases)
requires that degenerate geometries never propagate such results. -/
noncomputable def safeDiv (x y : ℝ) : Option ℝ :=
  if y = 0 then none else some (x / y)

/-- Modelled from the spec: the closed-form area of the occulted lens for a
uniform disk of radius `R` occulted by a disk of radius `r` at projected
separation `d`.  The degenerate geometries of spec section 4.3 (`r = 0`
point occultor, concentric or contained configuration `d ≤ |R - r|`, no
overlap `d ≥ R + r`) are special-cased; the general partial-overlap case is
the standard circle-circle intersection formula, whose two divisions are
checked. -/
noncomputable def occultArea (R r d : ℝ) : Option ℝ :=
  if r = 0 then some 0
  else if R + r ≤ d then some 0
  else if d ≤ |R - r| then some (Real.pi * min R r ^ 2)
  else
    (safeDiv (d ^ 2 + R ^ 2 - r ^ 2) (2 * d * R)).bind fun a =>
      (safeDiv (d ^ 2 + r ^ 2 - R ^ 2) (2 * d * r)).bind fun b =>
        some (R ^ 2 * Real.arccos a + r ^ 2 * Real.arccos b -
          Real.sqrt (((R + r) ^ 2 - d ^ 2) * (d ^ 2 - (R - r) ^ 2)) / 2)

/-- Modelled from the spec: the relative flux of a uniform-brightness disk of
radius `R` under occultation, `1 - occulted area / (Real.pi R ^ 2)`, with the final
normalizing division checked as well. -/
noncomputable def fluxUniform (R r d : ℝ) : Option ℝ :=
  (occultArea R r d).bind fun a =>
    (safeDiv a (Real.pi * R ^ 2)).bind fun q =>
      some (1 - q)

/- ## Limb-darkened flux deficit as a lens integral (spec section 4.4) -/

/-- Modelled from the spec: the lens-shaped intersection of the projected
unit-radius stellar disk with the occultor disk of radius `r` centred at
impact parameter `b`, as a region of the plane (the plane is modelled as `ℂ`
with its Euclidean structure). -/
def lensRegion (r b : ℝ) : Set ℂ :=
  Metric.ball 0 1 ∩ Metric.ball (b : ℂ) r

/-- Modelled from the spec: the polynomial limb-darkening law with coefficient
list `u`, as a function of `μ` (the cosine of the emission angle):
`I μ = 1 - Σ u_k (1 - μ) ^ k` with `k` running from `1` to the length of `u`
(glossary entry "limb darkening" and spec section 4.4). -/
noncomputable def ldLaw (u : List ℝ) (μ : ℝ) : ℝ :=
  1 - ∑ k ∈ Finset.range u.length, u.getD k 0 * (1 - μ) ^ (k + 1)

/-- Modelled from the spec: the disk-average of the limb-darkening law, used
to normalize the unocculted flux to the 1.0 baseline of spec section 6.  For
the polynomial law, `∫ (1 - μ) ^ (k + 1)` over the unit disk equals
`2 Real.pi / ((k + 2) (k + 3))`, giving this closed form for the average. -/
noncomputable def ldNorm (u : List ℝ) : ℝ :=
  1 - ∑ k ∈ Finset.range u.length, u.getD k 0 * (2 / ((k + 2) * (k + 3)))

/-- Modelled from the spec: the fractional flux lost to occultation, the
analytic integral of the limb-darkening law over the lens-shaped intersection
(spec section 4.4), normalized by the total disk-integrated flux
`Real.pi * ldNorm u`. -/
noncomputable def ldDeficit (u : List ℝ) (r b : ℝ) : ℝ :=
  (∫ x in lensRegion r b, ldLaw u (Real.sqrt (1 - ‖x‖ ^ 2))) / (Real.pi * ldNorm u)

/-- Modelled from the spec: the limb-darkened light-curve value at one sample.
Per the getting-started notebook (`flux = 1.0 + light_curve(system, u)(time)`)
the function returns the flux change relative to the unocculted baseline, so
its value is `0` out of transit and negative in transit; the caller adds the
`1.0` baseline. -/
noncomputable def limbDarkLightCurve (u : List ℝ) (r b : ℝ) : ℝ :=
  -ldDeficit u r b

/- ## Transit orbit (about notebook, spec section 8 scenario) -/

/-- Modelled from the spec: the transit orbit parameterized by the observables
of a transiting system: period, duration, time of transit, impact parameter
and radius ratio (field `rr`), as described in the about notebook. -/
structure TransitOrbit : Type where
  period : ℝ
  duration : ℝ
  t0 : ℝ
  b : ℝ
  rr : ℝ

/-- Modelled from the spec: the constant sky-plane crossing speed of the
transit-orbit companion, fixed so that the chord across the stellar disk (of
unit radius) between first and last contact takes exactly `duration` days. -/
noncomputable def transitSpeed (o : TransitOrbit) : ℝ :=
  2 * Real.sqrt ((1 + o.rr) ^ 2 - o.b ^ 2) / o.duration

/-- Modelled from the spec: the projected center-to-center separation of the
transit-orbit companion from the star at time `t`, periodic in the orbital
period: the time offset from transit is wrapped to the nearest period before
the straight-chord position is computed. -/
noncomputable def transitSep (o : TransitOrbit) (t : ℝ) : ℝ :=
  Real.sqrt (o.b ^ 2 +
    transitSpeed o ^ 2 * (t - o.t0 - o.period * round ((t - o.t0) / o.period)) ^ 2)

/-- Modelled from the spec: the limb-darkened light curve of a transit orbit
as a function of time, composing the orbit's projected separation with the
limb-darkened flux change (baseline `0` out of transit). -/
noncomputable def limbDarkLightCurveAt (o : TransitOrbit) (u : List ℝ) (t : ℝ) : ℝ :=
  limbDarkLightCurve u o.rr (transitSep o t)

/- ## Spherical-harmonic surface (spec section 4.5, starry notebooks) -/

/-- Modelled from the spec: a spherical-harmonic surface: degree bound,
coefficient vector in the flat `(l, m) ↦ l² + l + m` ordering of the
conventions notebook, orientation angles, rotation (spin) period,
limb-darkening coefficients and amplitude, matching the `Surface` constructor
calls of the starry notebook. -/
structure SurfaceModel : Type where
  lmax : ℕ
  coeffs : ℕ → ℝ
  inc : ℝ
  obl : ℝ
  period : ℝ
  u : List ℝ
  amplitude : ℝ

/-- Modelled from the spec: the `Surface` constructor.  The starry notebook
constructs a surface with spin period `-0.8` without any validation, so the
constructor is total and stores its arguments unchanged; the period-positivity
invariant of spec section 3 belongs to the orbital elements only. -/
def mkSurface (lmax : ℕ) (y : ℕ → ℝ) (inc obl period : ℝ) (u : List ℝ)
    (amplitude : ℝ) : SurfaceModel :=
  ⟨lmax, y, inc, obl, period, u, amplitude⟩

/-- Degree-order decoding of the flat spherical-harmonic index: the order `m`
of index `i = l² + l + m`, where `l` is the integer square root of `i`. -/
def mOf (i : ℕ) : ℤ :=
  (i : ℤ) - (Nat.sqrt i : ℤ) ^ 2 - (Nat.sqrt i : ℤ)

/-- Index of the coefficient of opposite order `(l, -m)` paired with flat
index `i = l² + l + m`, namely `l² + l - m = 2 l² + 2 l - i`. -/
def partnerIdx (i : ℕ) : ℕ :=
  2 * Nat.sqrt i ^ 2 + 2 * Nat.sqrt i - i

/-- Modelled from the spec: the exact rigid rotation of a real
spherical-harmonic coefficient vector about the viewing axis by angle `θ`
(the phase rotation of spec section 4.5): within each degree the orders `m`
and `-m` mix by `cos (m θ)` and `sin (m θ)`, and the `(0,0)` coefficient is
left unchanged. -/
noncomputable def rotZ (θ : ℝ) (c : ℕ → ℝ) : ℕ → ℝ := fun i =>
  Real.cos (mOf i * θ) * c i - Real.sin (mOf i * θ) * c (partnerIdx i)

/-- Modelled from the spec: the spin phase of a surface at time `t`, the
`2 Real.pi t / period` rotation angle.  The division by the spin period is checked;
a negative (retrograde) period is a valid input. -/
noncomputable def rotationPhase (s : SurfaceModel) (t : ℝ) : Option ℝ :=
  safeDiv (2 * Real.pi * t) s.period

/-- Modelled from the spec: the full-disk (unocculted) flux integral weight
vector.  The missing starry core computes this as the Green's-basis full-disk
integral of each spherical harmonic; spec section 4.5 states that over a full
disk every term of degree `l ≥ 1` integrates to zero by orthogonality and the
`(0,0)` term is scaled by solid angle, normalized so that the baseline of spec
section 6 is `1.0`. -/
noncomputable def diskWeight (i : ℕ) : ℝ :=
  if i = 0 then 1 else 0

/-- Modelled from the spec: the occultation weight vector.  The missing
starry core evaluates these as Green's-basis boundary integrals over the
occultor limb (spec section 4.5); the spec pins down only the uniform `(0,0)`
component, which loses the lens solid-angle fraction of the disk. -/
noncomputable def shOccWeight (r b : ℝ) (i : ℕ) : ℝ :=
  if i = 0 then (MeasureTheory.volume (lensRegion r b)).toReal / Real.pi else 0

/-- Modelled from the spec: the surface light curve at one sample: the
coefficient vector is rotated by the spin phase, then either the full-disk
weights (no occultation: occultor behind, `z ≤ 0`, or beyond first contact,
`b ≥ 1 + r`) or the occultation-corrected weights are applied. -/
noncomputable def surfaceLightCurve (s : SurfaceModel) (r b z t : ℝ) :
    Option ℝ :=
  (rotationPhase s t).bind fun θ =>
    let c := rotZ θ s.coeffs
    if z ≤ 0 ∨ 1 + r ≤ b then
      some (s.amplitude * ∑ i ∈ Finset.range ((s.lmax + 1) ^ 2), diskWeight i * c i)
    else
      some (s.amplitude * ∑ i ∈ Finset.range ((s.lmax + 1) ^ 2),
        (diskWeight i - shOccWeight r b i) * c i)

/- ## Helper lemmas -/

/-- The step counter of the fixed-budget Kepler iteration equals the budget,
whatever the numeric inputs are. -/
theorem keplerAux_count (e M : ℝ) (n : ℕ) : (keplerAux e M n).2 = n := by
  induction n with
  | zero => rfl
  | succ k ih => simp [keplerAux, ih]

/-- The flat index `0` codes the `(0, 0)` spherical harmonic: its order is
zero. -/
theorem mOf_zero : mOf 0 = 0 := by
  simp [mOf]

/-- The `(0, 0)` coefficient is paired with itself under order negation. -/
theorem partnerIdx_zero : partnerIdx 0 = 0 := by
  simp [partnerIdx]

/-- Rotation about the viewing axis leaves the `(0, 0)` coefficient
unchanged. -/
theorem rotZ_apply_zero (θ : ℝ) (c : ℕ → ℝ) : rotZ θ c 0 = c 0 := by
  simp [rotZ, mOf_zero, partnerIdx_zero]

/-- The full-disk weight vector extracts the `(0, 0)` coefficient from any
coefficient vector of positive length. -/
theorem diskWeight_sum (n : ℕ) (hn : 0 < n) (c : ℕ → ℝ) :
    ∑ i ∈ Finset.range n, diskWeight i * c i = c 0 := by
  have h0 : (0 : ℕ) ∈ Finset.range n := Finset.mem_range.mpr hn
  calc ∑ i ∈ Finset.range n, diskWeight i * c i
      = ∑ i ∈ Finset.range n, if i = 0 then c i else 0 := by
        refine Finset.sum_congr rfl fun i _ => ?_
        by_cases h : i = 0 <;> simp [diskWeight, h]
    _ = c 0 := by rw [Finset.sum_ite_eq']; exact if_pos h0

/-- On a no-occultation sample the surface light curve returns the amplitude
times the `(0, 0)` coefficient, independently of every other coefficient, of
the orientation and of the spin phase. -/
theorem surfaceLightCurve_noOcc (s : SurfaceModel) (r b z t : ℝ)
    (hp : s.period ≠ 0) (h : z ≤ 0 ∨ 1 + r ≤ b) :
    surfaceLightCurve s r b z t = some (s.amplitude * s.coeffs 0) := by
  have hbind : rotationPhase s t = some (2 * Real.pi * t / s.period) := by
    simp [rotationPhase, safeDiv, hp]
  have hpos : 0 < (s.lmax + 1) ^ 2 := by positivity
  simp only [surfaceLightCurve, hbind, Option.some_bind]
  rw [if_pos h, diskWeight_sum _ hpos, rotZ_apply_zero]

/- ## Lens-region lemmas -/

/-- Concentric balls in the plane intersect in the smaller ball. -/
theorem ball_inter_ball_same_center (x : ℂ) (R r : ℝ) :
    Metric.ball x R ∩ Metric.ball x r = Metric.ball x (min R r) := by
  ext p
  simp [Metric.mem_ball, lt_min_iff]

/-- The area of a planar disk of nonnegative radius, as a single
`ENNReal.ofReal` value. -/
theorem volume_ball_complex (x : ℂ) (ρ : ℝ) (hρ : 0 ≤ ρ) :
    MeasureTheory.volume (Metric.ball x ρ) = ENNReal.ofReal (Real.pi * ρ ^ 2) := by
  have hpi : (NNReal.pi : ENNReal) = ENNReal.ofReal Real.pi := by
    rw [← NNReal.coe_real_pi, ENNReal.ofReal_coe_nnreal]
  rw [Complex.volume_ball, ← ENNReal.ofReal_pow hρ, hpi,
    ← ENNReal.ofReal_mul (by positivity), mul_comm]

/-- Distance in the plane between the disk centres is the impact
parameter. -/
theorem dist_zero_ofReal (b : ℝ) : dist (0 : ℂ) (b : ℂ) = |b| := by
  rw [dist_comm, Complex.dist_eq, sub_zero, Complex.abs_ofReal]

/-- Beyond first contact (`b ≥ 1 + r`) the lens region is empty. -/
theorem lensRegion_empty (r b : ℝ) (h : 1 + r ≤ b) : lensRegion r b = ∅ := by
  refine Set.disjoint_iff_inter_eq_empty.mp (Metric.ball_disjoint_ball ?_)
  rw [dist_zero_ofReal]
  exact h.trans (le_abs_self b)

/-- The lens region is an open, hence measurable, set. -/
theorem lensRegion_measurableSet (r b : ℝ) :
    MeasurableSet (lensRegion r b) :=
  (Metric.isOpen_ball.inter Metric.isOpen_ball).measurableSet

/-- The lens region is contained in the stellar disk. -/
theorem lensRegion_subset (r b : ℝ) :
    lensRegion r b ⊆ Metric.ball 0 1 :=
  Set.inter_subset_left

/-- The lens region has finite area. -/
theorem lensRegion_volume_ne_top (r b : ℝ) :
    MeasureTheory.volume (lensRegion r b) ≠ ⊤ :=
  ((MeasureTheory.measure_mono (lensRegion_subset r b)).trans_lt
    MeasureTheory.measure_ball_lt_top).ne

/-- The limb-darkening integrand is continuous on the plane. -/
theorem ldLaw_comp_continuous (u : List ℝ) :
    Continuous fun x : ℂ => ldLaw u (Real.sqrt (1 - ‖x‖ ^ 2)) := by
  have h1 : Continuous fun μ : ℝ => ldLaw u μ := by
    unfold ldLaw
    refine continuous_const.sub (continuous_finset_sum _ fun k _ => ?_)
    exact continuous_const.mul ((continuous_const.sub continuous_id).pow (k + 1))
  exact h1.comp (Real.continuous_sqrt.comp
    (continuous_const.sub (continuous_norm.pow 2)))

/-- The limb-darkening integrand is integrable on the lens region. -/
theorem ldLaw_integrableOn (u : List ℝ) (r b : ℝ) :
    MeasureTheory.IntegrableOn
      (fun x : ℂ => ldLaw u (Real.sqrt (1 - ‖x‖ ^ 2))) (lensRegion r b) := by
  have h : MeasureTheory.IntegrableOn
      (fun x : ℂ => ldLaw u (Real.sqrt (1 - ‖x‖ ^ 2)))
      (Metric.closedBall (0 : ℂ) 1) MeasureTheory.volume :=
    ((ldLaw_comp_continuous u).continuousOn).integrableOn_compact
      (isCompact_closedBall (0 : ℂ) 1)
  exact h.mono_set ((lensRegion_subset r b).trans Metric.ball_subset_closedBall)

/-- Before first contact the lens region is nonempty: it contains a point of
the real axis strictly inside both disks. -/
theorem lensRegion_nonempty (r b : ℝ) (hr : 0 < r) (hb : 0 ≤ b)
    (hlt : b < 1 + r) : (lensRegion r b).Nonempty := by
  set lo : ℝ := max (b - r) (-1) with hlo
  set hi : ℝ := min (b + r) 1 with hhi
  have h1 : lo < hi := by
    rw [hlo, hhi]
    apply max_lt <;> apply lt_min <;> linarith
  set x0 : ℝ := (lo + hi) / 2 with hx0
  have hlo1 : (-1 : ℝ) ≤ lo := le_max_right _ _
  have hlo2 : b - r ≤ lo := le_max_left _ _
  have hhi1 : hi ≤ 1 := min_le_right _ _
  have hhi2 : hi ≤ b + r := min_le_left _ _
  have hxlo : lo < x0 := by rw [hx0]; linarith
  have hxhi : x0 < hi := by rw [hx0]; linarith
  refine ⟨(x0 : ℂ), ?_, ?_⟩
  · rw [Metric.mem_ball, Complex.dist_eq, sub_zero, Complex.abs_ofReal]
    exact abs_lt.mpr ⟨by linarith, by linarith⟩
  · rw [Metric.mem_ball, Complex.dist_eq, ← Complex.ofReal_sub,
      Complex.abs_ofReal]
    exact abs_lt.mpr ⟨by linarith, by linarith⟩

/-- With no overlap the limb-darkened deficit vanishes identically. -/
theorem ldDeficit_eq_zero_of_separate (u : List ℝ) (r b : ℝ)
    (h : 1 + r ≤ b) : ldDeficit u r b = 0 := by
  rw [ldDeficit, lensRegion_empty r b h, MeasureTheory.setIntegral_empty,
    zero_div]

/-- With genuine overlap and a limb-darkening law bounded below by a positive
constant on the disk, the deficit is strictly positive. -/
theorem ldDeficit_pos (u : List ℝ) (r b c : ℝ) (hr : 0 < r) (hb : 0 ≤ b)
    (hlt : b < 1 + r) (hc : 0 < c)
    (hlaw : ∀ μ : ℝ, 0 ≤ μ → μ ≤ 1 → c ≤ ldLaw u μ)
    (hnorm : 0 < ldNorm u) : 0 < ldDeficit u r b := by
  have hSm := lensRegion_measurableSet r b
  have hne := lensRegion_nonempty r b hr hb hlt
  have hopen : IsOpen (lensRegion r b) :=
    Metric.isOpen_ball.inter Metric.isOpen_ball
  have hpos : 0 < MeasureTheory.volume (lensRegion r b) :=
    hopen.measure_pos MeasureTheory.volume hne
  have hfin := lensRegion_volume_ne_top r b
  have hlb : ∀ x ∈ lensRegion r b, c ≤ ldLaw u (Real.sqrt (1 - ‖x‖ ^ 2)) := by
    intro x hx
    have hx1 : ‖x‖ < 1 := by
      have hmem := hx.1
      rwa [Metric.mem_ball, dist_zero_right] at hmem
    refine hlaw _ (Real.sqrt_nonneg _) (Real.sqrt_le_one.mpr ?_)
    nlinarith [norm_nonneg x]
  have hint := MeasureTheory.setIntegral_ge_of_const_le hSm hfin hlb
    (ldLaw_integrableOn u r b)
  have htr : 0 < (MeasureTheory.volume (lensRegion r b)).toReal :=
    ENNReal.toReal_pos hpos.ne' hfin
  have hnum : 0 < ∫ x in lensRegion r b, ldLaw u (Real.sqrt (1 - ‖x‖ ^ 2)) :=
    lt_of_lt_of_le (by positivity) hint
  exact div_pos hnum (by positivity)

/-- The spec scenario's quadratic law `u = (0.1, 0.06)` is bounded below by
`21 / 25` on the disk. -/
theorem ldLaw_quadratic_lb (μ : ℝ) (h0 : 0 ≤ μ) (h1 : μ ≤ 1) :
    (21 / 25 : ℝ) ≤ ldLaw [1 / 10, 3 / 50] μ := by
  have hexp : ldLaw [1 / 10, 3 / 50] μ =
      1 - ((1 / 10 : ℝ) * (1 - μ) ^ 1 + (3 / 50) * (1 - μ) ^ 2) := by
    norm_num [ldLaw, Finset.sum_range_succ]
  rw [hexp]
  nlinarith [sq_nonneg (1 - μ), sq_nonneg μ]

/-- The normalization constant of the spec scenario's quadratic law. -/
theorem ldNorm_quadratic : ldNorm [1 / 10, 3 / 50] = 287 / 300 := by
  norm_num [ldNorm, Finset.sum_range_succ]

/- ## Transit scenario lemmas -/

/-- In the spec scenario (period 3, duration 0.12, central crossing), within
half a period of the transit time the projected separation is the crossing
speed `55 / 3` times the time offset. -/
theorem scenario_sep (t0 t : ℝ) (h : |t - t0| < 3 / 2) :
    transitSep ⟨3, 3 / 25, t0, 0, 1 / 10⟩ t = 55 / 3 * |t - t0| := by
  have habs := abs_lt.mp h
  have hround : round ((t - t0) / 3) = 0 := by
    rw [round_eq_zero_iff]
    constructor
    · rw [le_div_iff₀ (by norm_num : (0:ℝ) < 3)]
      linarith [habs.1]
    · rw [div_lt_iff₀ (by norm_num : (0:ℝ) < 3)]
      linarith [habs.2]
  unfold transitSep transitSpeed
  simp only [hround]
  have hs : Real.sqrt ((1 + 1 / 10) ^ 2 - (0:ℝ) ^ 2) = 11 / 10 := by
    rw [show ((1 + 1 / 10 : ℝ)) ^ 2 - (0:ℝ) ^ 2 = (11 / 10) ^ 2 by norm_num,
      Real.sqrt_sq (by norm_num)]
  rw [hs]
  rw [show (0:ℝ) ^ 2 + (2 * (11 / 10) / (3 / 25)) ^ 2 * (t - t0 - 3 * ((0:ℤ):ℝ)) ^ 2
      = (55 / 3 * |t - t0|) ^ 2 by rw [mul_pow, sq_abs]; ring,
    Real.sqrt_sq (by positivity)]

/-- Concentric occultation reduces the lens integral to a one-dimensional
radial integral: polar decomposition of the area integral over the occultor
disk of radius `r ≤ 1` centred on the stellar disk. -/
theorem lens_integral_concentric (u : List ℝ) (r : ℝ) (hr0 : 0 ≤ r)
    (hr1 : r ≤ 1) :
    (∫ x in lensRegion r 0, ldLaw u (Real.sqrt (1 - ‖x‖ ^ 2))) =
      2 * Real.pi * ∫ y in (0:ℝ)..r, y * ldLaw u (Real.sqrt (1 - y ^ 2)) := by
  have hS : lensRegion r 0 = Metric.ball (0 : ℂ) r := by
    rw [lensRegion, Complex.ofReal_zero, ball_inter_ball_same_center,
      min_eq_right hr1]
  set f : ℝ → ℝ := fun ρ => ldLaw u (Real.sqrt (1 - ρ ^ 2)) with hfdef
  set g : ℝ → ℝ := Set.indicator (Set.Iio r) f with hgdef
  have hind : ∀ x : ℂ,
      Set.indicator (Metric.ball 0 r) (fun x : ℂ => f ‖x‖) x = g ‖x‖ := by
    intro x
    by_cases hx : x ∈ Metric.ball (0 : ℂ) r
    · have hn : ‖x‖ ∈ Set.Iio r := by
        rwa [Metric.mem_ball, dist_zero_right] at hx
      rw [Set.indicator_of_mem hx, hgdef, Set.indicator_of_mem hn]
    · have hn : ‖x‖ ∉ Set.Iio r := by
        rwa [Metric.mem_ball, dist_zero_right] at hx
      rw [Set.indicator_of_not_mem hx, hgdef, Set.indicator_of_not_mem hn]
  have hmain := MeasureTheory.integral_fun_norm_addHaar
    (MeasureTheory.volume : MeasureTheory.Measure ℂ) g
  have hdim : Module.finrank ℝ ℂ = 2 := Complex.finrank_real_complex
  rw [hdim] at hmain
  have hvol : (MeasureTheory.volume (Metric.ball (0 : ℂ) 1)).toReal = Real.pi := by
    rw [volume_ball_complex 0 1 (by norm_num)]
    rw [show Real.pi * (1:ℝ) ^ 2 = Real.pi by ring]
    exact ENNReal.toReal_ofReal Real.pi_pos.le
  rw [hvol] at hmain
  have hleft : (∫ x in lensRegion r 0, ldLaw u (Real.sqrt (1 - ‖x‖ ^ 2))) =
      ∫ x : ℂ, g ‖x‖ := by
    rw [hS, ← MeasureTheory.integral_indicator Metric.isOpen_ball.measurableSet]
    congr 1
    funext x
    exact hind x
  rw [hleft, hmain]
  have hright : (∫ y in Set.Ioi (0:ℝ), y ^ (2 - 1) • g y) =
      ∫ y in (0:ℝ)..r, y * f y := by
    have hpt : ∀ y : ℝ, y ^ (2 - 1) • g y =
        Set.indicator (Set.Iio r) (fun y => y * f y) y := by
      intro y
      by_cases hy : y ∈ Set.Iio r
      · rw [hgdef, Set.indicator_of_mem hy, Set.indicator_of_mem hy]
        simp [smul_eq_mul]
      · rw [hgdef, Set.indicator_of_not_mem hy, Set.indicator_of_not_mem hy]
        simp
    calc (∫ y in Set.Ioi (0:ℝ), y ^ (2 - 1) • g y)
        = ∫ y in Set.Ioi (0:ℝ),
            Set.indicator (Set.Iio r) (fun y => y * f y) y := by
          refine MeasureTheory.integral_congr_ae (Filter.Eventually.of_forall ?_)
          exact fun y => hpt y
      _ = ∫ y in Set.Ioi (0:ℝ) ∩ Set.Iio r, y * f y :=
          MeasureTheory.setIntegral_indicator measurableSet_Iio
      _ = ∫ y in Set.Ioo (0:ℝ) r, y * f y := by rw [Set.Ioi_inter_Iio]
      _ = ∫ y in Set.Ioc (0:ℝ) r, y * f y :=
          (MeasureTheory.integral_Ioc_eq_integral_Ioo).symm
      _ = ∫ y in (0:ℝ)..r, y * f y :=
          (intervalIntegral.integral_of_le hr0).symm
  rw [hright, nsmul_eq_mul, smul_eq_mul]
  ring

/-- The central radial moment of the square root factor: substitution
`t = 1 - y ^ 2` evaluates `∫ y √(1 - y²)` in closed form. -/
theorem radial_sqrt_integral (r : ℝ) (h0 : 0 ≤ r) (h1 : r < 1) :
    ∫ y in (0:ℝ)..r, y * Real.sqrt (1 - y ^ 2) =
      (1 - (1 - r ^ 2) * Real.sqrt (1 - r ^ 2)) / 3 := by
  have hx : (0:ℝ) < 1 - r ^ 2 := by nlinarith
  have hderiv : ∀ x ∈ Set.uIcc (0:ℝ) r,
      HasDerivAt (fun x : ℝ => 1 - x ^ 2) (-2 * x) x := by
    intro x _
    have h := (hasDerivAt_pow 2 x).const_sub 1
    convert h using 1
    norm_num
  have hcont : ContinuousOn (fun x : ℝ => -2 * x) (Set.uIcc (0:ℝ) r) :=
    (continuous_const.mul continuous_id).continuousOn
  have hsub := intervalIntegral.integral_comp_mul_deriv hderiv hcont
    Real.continuous_sqrt
  have hL : (∫ x in (0:ℝ)..r,
      (Real.sqrt ∘ fun x : ℝ => 1 - x ^ 2) x * (-2 * x)) =
      -2 * ∫ x in (0:ℝ)..r, x * Real.sqrt (1 - x ^ 2) := by
    rw [← intervalIntegral.integral_const_mul]
    apply intervalIntegral.integral_congr
    intro x _
    simp only [Function.comp]
    ring
  have heq : Set.EqOn Real.sqrt (fun x : ℝ => x ^ ((1:ℝ)/2))
      (Set.uIcc ((1:ℝ) - r ^ 2) (1 - 0 ^ 2)) := fun x _ => Real.sqrt_eq_rpow x
  have hval : (∫ x in ((1:ℝ) - r ^ 2)..(1 - 0 ^ 2), Real.sqrt x) =
      (1 - (1 - r ^ 2) * Real.sqrt (1 - r ^ 2)) / (3/2) := by
    rw [intervalIntegral.integral_congr heq,
      integral_rpow (Or.inl (by norm_num : (-1:ℝ) < 1/2))]
    have h32 : ((1:ℝ)/2 + 1) = (3:ℝ)/2 := by norm_num
    rw [h32]
    have hb : ((1:ℝ) - 0 ^ 2) = 1 := by norm_num
    rw [hb, Real.one_rpow]
    have hpow : ((1:ℝ) - r ^ 2) ^ ((3:ℝ)/2) =
        (1 - r ^ 2) * Real.sqrt (1 - r ^ 2) := by
      rw [show ((3:ℝ)/2) = 1 + 1/2 by norm_num, Real.rpow_add hx,
        Real.rpow_one, ← Real.sqrt_eq_rpow]
    rw [hpow]
  have hflip : (∫ x in ((1:ℝ) - 0 ^ 2)..(1 - r ^ 2), Real.sqrt x) =
      -(∫ x in ((1:ℝ) - r ^ 2)..(1 - 0 ^ 2), Real.sqrt x) :=
    intervalIntegral.integral_symm _ _
  rw [hL] at hsub
  rw [hflip, hval] at hsub
  linarith

/-- Closed form of the radial integral for the spec scenario's quadratic
limb-darkening law. -/
theorem quadratic_radial_integral (r : ℝ) (h0 : 0 ≤ r) (h1 : r < 1) :
    (∫ y in (0:ℝ)..r, y * ldLaw [1/10, 3/50] (Real.sqrt (1 - y ^ 2))) =
      39/50 * (r ^ 2 / 2) + 3/50 * (r ^ 4 / 4) +
        11/50 * ((1 - (1 - r ^ 2) * Real.sqrt (1 - r ^ 2)) / 3) := by
  have hcong : Set.EqOn
      (fun y : ℝ => y * ldLaw [1/10, 3/50] (Real.sqrt (1 - y ^ 2)))
      (fun y : ℝ => 39/50 * y + 3/50 * y ^ 3 +
        11/50 * (y * Real.sqrt (1 - y ^ 2)))
      (Set.uIcc (0:ℝ) r) := by
    intro y hy
    rw [Set.uIcc_of_le h0] at hy
    have hy2 : (0:ℝ) ≤ 1 - y ^ 2 := by nlinarith [hy.1, hy.2]
    have hs2 : Real.sqrt (1 - y ^ 2) ^ 2 = 1 - y ^ 2 := Real.sq_sqrt hy2
    have hexp : ldLaw [1/10, 3/50] (Real.sqrt (1 - y ^ 2)) =
        1 - ((1/10 : ℝ) * (1 - Real.sqrt (1 - y ^ 2)) ^ 1 +
          3/50 * (1 - Real.sqrt (1 - y ^ 2)) ^ 2) := by
      norm_num [ldLaw, Finset.sum_range_succ]
    simp only
    rw [hexp]
    linear_combination (-(3:ℝ)/50 * y) * hs2
  rw [intervalIntegral.integral_congr hcong]
  have ha : IntervalIntegrable (fun y : ℝ => 39/50 * y)
      MeasureTheory.volume 0 r :=
    (continuous_const.mul continuous_id).intervalIntegrable 0 r
  have hb : IntervalIntegrable (fun y : ℝ => 3/50 * y ^ 3)
      MeasureTheory.volume 0 r :=
    (continuous_const.mul (continuous_pow 3)).intervalIntegrable 0 r
  have hc : IntervalIntegrable
      (fun y : ℝ => 11/50 * (y * Real.sqrt (1 - y ^ 2)))
      MeasureTheory.volume 0 r :=
    (continuous_const.mul (continuous_id.mul (Real.continuous_sqrt.comp
      (continuous_const.sub (continuous_pow 2))))).intervalIntegrable 0 r
  rw [intervalIntegral.integral_add (ha.add hb) hc,
    intervalIntegral.integral_add ha hb]
  rw [intervalIntegral.integral_const_mul, intervalIntegral.integral_const_mul,
    intervalIntegral.integral_const_mul, integral_id, integral_pow,
    radial_sqrt_integral r h0 h1]
  norm_num

/-- Rational bounds on the central flux deficit of the spec scenario: the
deficit at mid-transit lies within `0.001` of `0.01`. -/
theorem scenario_deficit_bounds :
    1/100 - 1/1000 < ldDeficit [1/10, 3/50] (1/10) 0 ∧
    ldDeficit [1/10, 3/50] (1/10) 0 < 1/100 + 1/1000 := by
  have hint := lens_integral_concentric [1/10, 3/50] (1/10) (by norm_num)
    (by norm_num)
  have hval := quadratic_radial_integral (1/10) (by norm_num) (by norm_num)
  have hs1 : (994987/1000000 : ℝ) < Real.sqrt (1 - (1/10:ℝ) ^ 2) := by
    rw [Real.lt_sqrt (by norm_num)]
    norm_num
  have hs2 : Real.sqrt (1 - (1/10:ℝ) ^ 2) < 994988/1000000 := by
    rw [Real.sqrt_lt' (by norm_num)]
    norm_num
  have hdef : ldDeficit [1/10, 3/50] (1/10) 0 =
      (600:ℝ)/287 * (39/50 * ((1/10:ℝ) ^ 2 / 2) + 3/50 * ((1/10:ℝ) ^ 4 / 4) +
        11/50 * ((1 - (1 - (1/10:ℝ) ^ 2) * Real.sqrt (1 - (1/10:ℝ) ^ 2)) / 3)) := by
    rw [ldDeficit, hint, hval, ldNorm_quadratic]
    field_simp
    ring
  rw [hdef]
  constructor <;> nlinarith [hs1, hs2]

/- ## Claim theorems -/

/-- C6: in the spec's concrete transit scenario (period 3 days, circular
central crossing, radius ratio 0.1, duration 0.12 days, quadratic limb
darkening `u = (0.1, 0.06)`) the light curve over the period-wide window
around the transit time `t0` is symmetric about `t0`, departs from the
unocculted baseline exactly on the single interval `|t - t0| < 0.06` (one
dip, of full duration 0.12 days), and its mid-transit depth is within
`0.001` of the claimed `radius_ratio ^ 2 = 0.01`. -/
theorem transit_scenario_single_dip (t0 : ℝ) :
    (∀ δ : ℝ, |δ| < 3/2 →
      limbDarkLightCurveAt ⟨3, 3/25, t0, 0, 1/10⟩ [1/10, 3/50] (t0 + δ) =
        limbDarkLightCurveAt ⟨3, 3/25, t0, 0, 1/10⟩ [1/10, 3/50] (t0 - δ)) ∧
    (∀ t : ℝ, |t - t0| < 3/2 →
      (limbDarkLightCurveAt ⟨3, 3/25, t0, 0, 1/10⟩ [1/10, 3/50] t = 0 ↔
        3/50 ≤ |t - t0|)) ∧
    |limbDarkLightCurveAt ⟨3, 3/25, t0, 0, 1/10⟩ [1/10, 3/50] t0 + 1/100| <
      1/1000 := by
  refine ⟨?_, ?_, ?_⟩
  · intro δ hδ
    have h1 : |t0 + δ - t0| < 3/2 := by
      rw [show t0 + δ - t0 = δ by ring]; exact hδ
    have h2 : |t0 - δ - t0| < 3/2 := by
      rw [show t0 - δ - t0 = -δ by ring, abs_neg]; exact hδ
    unfold limbDarkLightCurveAt
    rw [scenario_sep t0 (t0 + δ) h1, scenario_sep t0 (t0 - δ) h2,
      show t0 + δ - t0 = δ by ring, show t0 - δ - t0 = -δ by ring, abs_neg]
  · intro t ht
    unfold limbDarkLightCurveAt
    rw [scenario_sep t0 t ht]
    constructor
    · intro h0
      by_contra hlt
      push_neg at hlt
      have hblt : (55:ℝ)/3 * |t - t0| < 1 + 1/10 := by
        have := mul_lt_mul_of_pos_left hlt (by norm_num : (0:ℝ) < 55/3)
        calc (55:ℝ)/3 * |t - t0| < 55/3 * (3/50) := this
          _ = 1 + 1/10 := by norm_num
      have hpos : 0 < ldDeficit [1/10, 3/50] (1/10) (55/3 * |t - t0|) :=
        ldDeficit_pos [1/10, 3/50] (1/10) (55/3 * |t - t0|) (21/25)
          (by norm_num) (by positivity) hblt (by norm_num)
          ldLaw_quadratic_lb (by rw [ldNorm_quadratic]; norm_num)
      rw [limbDarkLightCurve, neg_eq_zero] at h0
      linarith
    · intro hge
      have hsep : (1:ℝ) + 1/10 ≤ 55/3 * |t - t0| := by
        calc (1:ℝ) + 1/10 = 55/3 * (3/50) := by norm_num
          _ ≤ 55/3 * |t - t0| :=
            mul_le_mul_of_nonneg_left hge (by norm_num)
      rw [limbDarkLightCurve,
        ldDeficit_eq_zero_of_separate [1/10, 3/50] (1/10) _ hsep, neg_zero]
  · unfold limbDarkLightCurveAt
    have h0 : |t0 - t0| < 3/2 := by
      rw [sub_self, abs_zero]; norm_num
    rw [scenario_sep t0 t0 h0, sub_self, abs_zero, mul_zero,
      limbDarkLightCurve]
    have hb := scenario_deficit_bounds
    rw [abs_lt]
    constructor <;> linarith [hb.1, hb.2]

/-- C6 witness: the scenario at `t0 = 0`: mid-transit depth near `0.01`,
symmetry at offset `1`, baseline exactly at the contact offset `0.06`, and a
strict dip just inside it. -/
theorem transit_scenario_single_dip_witness :
    |limbDarkLightCurveAt ⟨3, 3/25, 0, 0, 1/10⟩ [1/10, 3/50] 0 + 1/100| <
        1/1000 ∧
    limbDarkLightCurveAt ⟨3, 3/25, 0, 0, 1/10⟩ [1/10, 3/50] (0 + 1) =
      limbDarkLightCurveAt ⟨3, 3/25, 0, 0, 1/10⟩ [1/10, 3/50] (0 - 1) ∧
    (limbDarkLightCurveAt ⟨3, 3/25, 0, 0, 1/10⟩ [1/10, 3/50] (3/50) = 0 ↔
      (3:ℝ)/50 ≤ |(3:ℝ)/50 - 0|) := by
  refine ⟨(transit_scenario_single_dip 0).2.2,
    (transit_scenario_single_dip 0).1 1 (by norm_num), ?_⟩
  have h := (transit_scenario_single_dip 0).2.1 (3/50)
    (by rw [show (3:ℝ)/50 - 0 = 3/50 by ring,
      abs_of_nonneg (by norm_num : (0:ℝ) ≤ 3/50)]; norm_num)
  exact h

/-- C2 counterexample: at a no-occultation sample (`b = 6/5 ≥ 1 + r` with
`r = 1/10`) the limb-darkened light-curve path returns `0`, not the claimed
baseline value `1.0`: the limb-darkened path reports the flux change relative
to the baseline (the getting-started notebook adds `1.0` to it). -/
theorem limb_dark_baseline_counterexample :
    limbDarkLightCurve [1 / 10, 3 / 50] (1 / 10) (6 / 5) = 0 ∧ (0 : ℝ) ≠ 1 := by
  constructor
  · rw [limbDarkLightCurve,
      ldDeficit_eq_zero_of_separate [1 / 10, 3 / 50] (1 / 10) (6 / 5)
        (by norm_num), neg_zero]
  · norm_num

/-- C2 amended: at every sample with no occultation (`d ≥ R + r`, here in
stellar-radius units `b ≥ 1 + r`) each path sits exactly at its own
unocculted baseline, with a convention that is consistent across samples: the
limb-darkened path returns exactly `0` (its baseline — the caller adds
`1.0`), and the spherical-harmonic surface path returns exactly its total
unocculted flux, amplitude times the `(0,0)` coefficient, which is `1.0`
whenever the surface is normalized to unit total flux. -/
theorem no_occultation_baseline (u : List ℝ) (r b z t : ℝ)
    (s : SurfaceModel) (hocc : 1 + r ≤ b) (hp : s.period ≠ 0) :
    limbDarkLightCurve u r b = 0 ∧
    surfaceLightCurve s r b z t = some (s.amplitude * s.coeffs 0) ∧
    (s.amplitude * s.coeffs 0 = 1 → surfaceLightCurve s r b z t = some 1) := by
  have h1 : limbDarkLightCurve u r b = 0 := by
    rw [limbDarkLightCurve, ldDeficit_eq_zero_of_separate u r b hocc, neg_zero]
  have h2 := surfaceLightCurve_noOcc s r b z t hp (Or.inr hocc)
  exact ⟨h1, h2, fun hn => by rw [h2, hn]⟩

/-- C2 witness: a concrete out-of-transit sample on both paths, with a
normalized surface. -/
theorem no_occultation_baseline_witness :
    limbDarkLightCurve [1 / 10, 3 / 50] (1 / 10) (6 / 5) = 0 ∧
    surfaceLightCurve (mkSurface 0 (fun _ => 1) 0 0 1 [] 1) (1 / 10) (6 / 5) 1 0
      = some 1 := by
  have h := no_occultation_baseline [1 / 10, 3 / 50] (1 / 10) (6 / 5) 1 0
    (mkSurface 0 (fun _ => 1) 0 0 1 [] 1) (by norm_num) (by norm_num [mkSurface])
  exact ⟨h.1, h.2.2 (by norm_num [mkSurface])⟩

/-- C4 counterexample: at the degenerate configuration `R = 1`, `r = 0`,
`d = 1` the condition `d ≤ |R - r|` of the claim's second case holds, yet the
classifier (which tries the spec's cases in order) reports the no-overlap
case, not the fully-inside case, so the three stated cases are not mutually
exclusive as the claim asserts. -/
theorem classify_boundary_counterexample :
    classify (1 : ℚ) 0 1 = OverlapCase.separate ∧
    (1 : ℚ) ≤ |(1 : ℚ) - 0| ∧
    classify (1 : ℚ) 0 1 ≠ OverlapCase.contained := by
  refine ⟨by norm_num [classify], by norm_num, by simp [classify]⟩

/-- C4 amended: the classifier assigns exactly one of the three cases by
testing them in the spec's order: `d ≥ R + r` gives no overlap; otherwise
`d ≤ |R - r|` gives one disk fully inside the other; otherwise partial
overlap.  The first two conditions are simultaneously satisfiable only in the
degenerate boundary configuration `r = 0`, `d = R` (where no light is blocked
under either reading), and there the no-overlap case takes precedence. -/
theorem classify_ordered_cases {K : Type} [LinearOrderedField K] (R r d : K)
    (hR : 0 < R) (hr : 0 ≤ r) (hd : 0 ≤ d) :
    (R + r ≤ d → classify R r d = OverlapCase.separate) ∧
    (d < R + r → d ≤ |R - r| → classify R r d = OverlapCase.contained) ∧
    (|R - r| < d → d < R + r → classify R r d = OverlapCase.lens) ∧
    (R + r ≤ d → d ≤ |R - r| → r = 0 ∧ d = R) := by
  refine ⟨?_, ?_, ?_, ?_⟩
  · intro h; simp [classify, h]
  · intro h1 h2; simp [classify, not_le.mpr h1, h2]
  · intro h1 h2; simp [classify, not_le.mpr h1, not_le.mpr h1, not_le.mpr h2]
  · intro h1 h2
    rcases abs_cases (R - r) with ⟨habs, _⟩ | ⟨habs, _⟩
    · rw [habs] at h2
      have hr0 : r = 0 := le_antisymm (by linarith) hr
      exact ⟨hr0, by linarith⟩
    · rw [habs] at h2
      exfalso; linarith

/-- C4 witness: the amended classification evaluated on concrete
configurations of each kind. -/
theorem classify_ordered_cases_witness :
    classify (2 : ℚ) 1 3 = OverlapCase.separate ∧
    classify (2 : ℚ) 1 (1 / 2) = OverlapCase.contained ∧
    classify (2 : ℚ) 1 2 = OverlapCase.lens := by
  refine ⟨(classify_ordered_cases (2 : ℚ) 1 3 (by norm_num) (by norm_num)
      (by norm_num)).1 (by norm_num),
    (classify_ordered_cases (2 : ℚ) 1 (1 / 2) (by norm_num) (by norm_num)
      (by norm_num)).2.1 (by norm_num) (by norm_num),
    (classify_ordered_cases (2 : ℚ) 1 2 (by norm_num) (by norm_num)
      (by norm_num)).2.2.1 (by norm_num) (by norm_num)⟩

/-- C8: the orbital-element constructor rejects every invalid eccentricity
(`e < 0` or `e ≥ 1`) and every non-positive period, radius or mass with the
matching descriptive domain error, and on success it stores the inputs
exactly as given (no silent clamping) with all invariants established. -/
theorem mkOrbitalElements_validates {K : Type} [LinearOrderedField K]
    (p e rad m : K) :
    (p ≤ 0 → mkOrbitalElements p e rad m = .error .nonPositivePeriod) ∧
    (0 < p → (e < 0 ∨ 1 ≤ e) →
      mkOrbitalElements p e rad m = .error .invalidEccentricity) ∧
    (0 < p → 0 ≤ e → e < 1 → rad ≤ 0 →
      mkOrbitalElements p e rad m = .error .nonPositiveRadius) ∧
    (0 < p → 0 ≤ e → e < 1 → 0 < rad → m ≤ 0 →
      mkOrbitalElements p e rad m = .error .nonPositiveMass) ∧
    (∀ el, mkOrbitalElements p e rad m = .ok el →
      el = ⟨p, e, rad, m⟩ ∧ 0 < p ∧ 0 ≤ e ∧ e < 1 ∧ 0 < rad ∧ 0 < m) := by
  refine ⟨?_, ?_, ?_, ?_, ?_⟩
  · intro h; simp [mkOrbitalElements, h]
  · intro hp he
    simp [mkOrbitalElements, not_le.mpr hp, he]
  · intro hp he0 he1 hrad
    have hne : ¬(e < 0 ∨ 1 ≤ e) := by push_neg; exact ⟨he0, he1⟩
    simp [mkOrbitalElements, not_le.mpr hp, hne, hrad]
  · intro hp he0 he1 hrad hm
    have hne : ¬(e < 0 ∨ 1 ≤ e) := by push_neg; exact ⟨he0, he1⟩
    simp [mkOrbitalElements, not_le.mpr hp, hne, not_le.mpr hrad, hm]
  · intro el hel
    unfold mkOrbitalElements at hel
    split_ifs at hel with h1 h2 h3 h4
    all_goals simp only [Except.ok.injEq] at hel
    push_neg at h1 h2 h3 h4
    exact ⟨hel.symm, h1, h2.1, h2.2, h3, h4⟩

/-- C8 witness: concrete rejections and a concrete exact (unclamped)
acceptance. -/
theorem mkOrbitalElements_validates_witness :
    mkOrbitalElements (3 : ℚ) (3 / 2) 1 1 = .error .invalidEccentricity ∧
    mkOrbitalElements (0 : ℚ) (1 / 2) 1 1 = .error .nonPositivePeriod ∧
    mkOrbitalElements (3 : ℚ) (1 / 2) 1 (-1) = .error .nonPositiveMass := by
  refine ⟨(mkOrbitalElements_validates (3 : ℚ) (3 / 2) 1 1).2.1 (by norm_num)
      (by norm_num),
    (mkOrbitalElements_validates (0 : ℚ) (1 / 2) 1 1).1 (by norm_num),
    (mkOrbitalElements_validates (3 : ℚ) (1 / 2) 1 (-1)).2.2.2.1 (by norm_num)
      (by norm_num) (by norm_num) (by norm_num) (by norm_num)⟩

/-- C9: the Kepler Newton iteration runs a fixed step count: for every
eccentricity and mean anomaly the number of refinement steps performed is
exactly the step budget (there is no convergence gate), the budget is the
spec's fixed value 10, and the returned anomaly is the 10-fold iterate — a
total function, so every sample terminates in this bounded number of
steps. -/
theorem kepler_fixed_iteration_budget (e M : ℝ) :
    (∀ n : ℕ, (keplerAux e M n).2 = n) ∧
    (keplerAux e M keplerIterationCount).2 = 10 ∧
    keplerSolver e M = (keplerAux e M 10).1 := by
  exact ⟨keplerAux_count e M, keplerAux_count e M 10, rfl⟩

/-- C7: with no occultation, the surface flux depends only on the `(0, 0)`
spherical-harmonic coefficient (and the amplitude): two surfaces agreeing in
amplitude and in the `(0, 0)` coefficient return the same flux whatever their
higher-order coefficients, degrees, orientations, spin periods or sample
times, and that flux is the amplitude times the `(0, 0)` coefficient. -/
theorem surface_flux_c00_only (s s' : SurfaceModel) (r b z t t' : ℝ)
    (hp : s.period ≠ 0) (hp' : s'.period ≠ 0) (hocc : 1 + r ≤ b)
    (ha : s.amplitude = s'.amplitude) (h0 : s.coeffs 0 = s'.coeffs 0) :
    surfaceLightCurve s r b z t = surfaceLightCurve s' r b z t' ∧
    surfaceLightCurve s r b z t = some (s.amplitude * s.coeffs 0) := by
  have h1 := surfaceLightCurve_noOcc s r b z t hp (Or.inr hocc)
  have h2 := surfaceLightCurve_noOcc s' r b z t' hp' (Or.inr hocc)
  exact ⟨by rw [h1, h2, ha, h0], h1⟩

/-- C7 witness: two concrete degree-1 surfaces that differ in the `(1, 1)`
coefficient return the same no-occultation flux. -/
theorem surface_flux_c00_only_witness :
    surfaceLightCurve (mkSurface 1 (fun i => if i = 3 then 5 else 1) 0 0 1 [] 1)
        (1 / 10) (6 / 5) 1 (3 / 10) =
      surfaceLightCurve (mkSurface 1 (fun _ => 1) 0 0 1 [] 1)
        (1 / 10) (6 / 5) 1 (7 / 10) := by
  exact (surface_flux_c00_only
    (mkSurface 1 (fun i => if i = 3 then 5 else 1) 0 0 1 [] 1)
    (mkSurface 1 (fun _ => 1) 0 0 1 [] 1)
    (1 / 10) (6 / 5) 1 (3 / 10) (7 / 10)
    (by norm_num [mkSurface]) (by norm_num [mkSurface]) (by norm_num)
    (by norm_num [mkSurface]) (by norm_num [mkSurface])).1

/-- C10: constructing a surface map with a negative (retrograde) spin period
succeeds with the inputs stored unchanged (no validation and no error), the
spin phase and the surface light curve are defined at every sample, while the
same negative value is rejected as an orbital period — the period-positivity
precondition applies only to orbital elements. -/
theorem surface_negative_period_ok (lmax : ℕ) (y : ℕ → ℝ) (inc obl p : ℝ)
    (u : List ℝ) (amp : ℝ) (hp : p < 0) (r b z t : ℝ) :
    mkSurface lmax y inc obl p u amp =
        ⟨lmax, y, inc, obl, p, u, amp⟩ ∧
    (rotationPhase (mkSurface lmax y inc obl p u amp) t).isSome = true ∧
    (surfaceLightCurve (mkSurface lmax y inc obl p u amp) r b z t).isSome
        = true ∧
    mkOrbitalElements p (1 / 2 : ℝ) 1 1 = .error .nonPositivePeriod := by
  have hne : p ≠ 0 := ne_of_lt hp
  refine ⟨rfl, ?_, ?_, ?_⟩
  · simp [rotationPhase, safeDiv, mkSurface, hne]
  · have hbind : rotationPhase (mkSurface lmax y inc obl p u amp) t =
        some (2 * Real.pi * t / p) := by
      simp [rotationPhase, safeDiv, mkSurface, hne]
    simp only [surfaceLightCurve, hbind, Option.bind_some]
    split <;> simp
  · simp [mkOrbitalElements, hp.le]

/-- C5: over the whole valid parameter range (`R > 0`, `r ≥ 0`, `d ≥ 0`) the
occulted-area and uniform-flux computations are defined — every division is
checked and none is reached with a zero denominator — and at the three
degenerate geometries they return the exact analytic limits: the concentric
case `d = 0` returns the area of the smaller disk, `π min(R,r)²`, which is
the true area of the intersection of the two disks; the point occultor
`r = 0` returns `0`, the true (empty-lens) area; and equal disks `R = r` at
partial overlap return the equal-disk chord formula
`2 R² arccos(d / 2R) - (d/2) √(4R² - d²)`. -/
theorem degenerate_geometries_exact (R r d : ℝ) (hR : 0 < R) (hr : 0 ≤ r)
    (hd : 0 ≤ d) :
    ((occultArea R r d).isSome = true ∧ (fluxUniform R r d).isSome = true) ∧
    (occultArea R r 0 = some (Real.pi * min R r ^ 2) ∧
      MeasureTheory.volume (Metric.ball (0 : ℂ) R ∩ Metric.ball (0 : ℂ) r) =
        ENNReal.ofReal (Real.pi * min R r ^ 2)) ∧
    (occultArea R 0 d = some 0 ∧
      MeasureTheory.volume (Metric.ball (0 : ℂ) R ∩ Metric.ball (d : ℂ) 0) = 0) ∧
    (0 < d → d < 2 * R → occultArea R R d =
      some (2 * R ^ 2 * Real.arccos (d / (2 * R)) -
        d * Real.sqrt (4 * R ^ 2 - d ^ 2) / 2)) := by
  have harea : ∀ d' : ℝ, 0 ≤ d' → (occultArea R r d').isSome = true := by
    intro d' hd'
    unfold occultArea
    split_ifs with h1 h2 h3
    · rfl
    · rfl
    · rfl
    · have hd0 : 0 < d' := lt_of_le_of_lt (abs_nonneg (R - r)) (not_le.mp h3)
      have hden1 : 2 * d' * R ≠ 0 := by positivity
      have hden2 : 2 * d' * r ≠ 0 := mul_ne_zero (by positivity) h1
      simp [safeDiv, hden1, hden2]
  refine ⟨⟨harea d hd, ?_⟩, ⟨?_, ?_⟩, ⟨?_, ?_⟩, ?_⟩
  · rcases Option.isSome_iff_exists.mp (harea d hd) with ⟨a, ha⟩
    have hden : Real.pi * R ^ 2 ≠ 0 := by positivity
    simp [fluxUniform, ha, safeDiv, hden]
  · unfold occultArea
    rcases eq_or_ne r 0 with hr0 | hr0
    · simp [hr0, min_eq_right hR.le, hR.le]
    · have h1 : ¬(R + r ≤ 0) := by push_neg; positivity
      have h2 : (0 : ℝ) ≤ |R - r| := abs_nonneg _
      simp [hr0, h1, h2]
  · rw [ball_inter_ball_same_center,
      volume_ball_complex _ _ (le_min hR.le hr)]
  · simp [occultArea]
  · rw [Metric.ball_eq_empty.mpr le_rfl, Set.inter_empty, MeasureTheory.measure_empty]
  · intro hd0 hd2
    have hRne : (R : ℝ) ≠ 0 := hR.ne'
    have hnle : ¬(R + R ≤ d) := by push_neg; linarith
    have habs : |R - R| = 0 := by simp
    have hnle2 : ¬(d ≤ |R - R|) := by rw [habs]; push_neg; exact hd0
    have hden1 : 2 * d * R ≠ 0 := by positivity
    have harg : (d ^ 2 + R ^ 2 - R ^ 2) / (2 * d * R) = d / (2 * R) := by
      field_simp
      ring
    have hsd : safeDiv (d ^ 2 + R ^ 2 - R ^ 2) (2 * d * R) = some (d / (2 * R)) := by
      rw [safeDiv, if_neg hden1, harg]
    have hsqrt : Real.sqrt (((R + R) ^ 2 - d ^ 2) * (d ^ 2 - (R - R) ^ 2)) =
        Real.sqrt (4 * R ^ 2 - d ^ 2) * d := by
      rw [show ((R + R) ^ 2 - d ^ 2) * (d ^ 2 - (R - R) ^ 2) =
        (4 * R ^ 2 - d ^ 2) * d ^ 2 by ring, Real.sqrt_mul (by nlinarith),
        Real.sqrt_sq hd]
    unfold occultArea
    rw [if_neg hRne, if_neg hnle, if_neg hnle2]
    simp only [hsd, Option.some_bind, hsqrt]
    congr 1
    ring

/-- C5 witness: the degenerate geometries at concrete numbers: definedness at
a partial-overlap configuration, the concentric limit, the point-occultor
limit, and the equal-disk formula at `R = r = 1`, `d = 1`. -/
theorem degenerate_geometries_exact_witness :
    (occultArea 1 (1 / 2) (3 / 4)).isSome = true ∧
    occultArea 1 (1 / 2) 0 = some (Real.pi * min 1 (1 / 2 : ℝ) ^ 2) ∧
    occultArea 1 1 1 = some (2 * 1 ^ 2 * Real.arccos (1 / (2 * 1)) -
      1 * Real.sqrt (4 * 1 ^ 2 - 1 ^ 2) / 2) := by
  refine ⟨((degenerate_geometries_exact 1 (1 / 2) (3 / 4) (by norm_num)
      (by norm_num) (by norm_num)).1).1,
    ((degenerate_geometries_exact 1 (1 / 2) (3 / 4) (by norm_num) (by norm_num)
      (by norm_num)).2.1).1,
    ((degenerate_geometries_exact 1 1 1 (by norm_num) (by norm_num)
      (by norm_num)).2.2.2) (by norm_num) (by norm_num)⟩

/-- C10 witness: the starry notebook's retrograde spin period `-0.8`. -/
theorem surface_negative_period_ok_witness :
    (surfaceLightCurve (mkSurface 3 (fun _ => 1) (9 / 10) (-(3 / 10)) (-(4 / 5))
        [] 1) (1 / 2) 0 1 2).isSome = true := by
  exact (surface_negative_period_ok 3 (fun _ => 1) (9 / 10) (-(3 / 10))
    (-(4 / 5)) [] 1 (by norm_num) (1 / 2) 0 1 2).2.2.1

end Jaxoplanet
